import Mathlib

/-!
Verification of the `axe` preview backend against its specification.

We shallowly embed the Go code of the repository into Lean: pure logic
becomes Lean functions, subprocess results (device lists, config store
lookups, companion stdout lines) become explicit parameters, and channels
become bounded queues.  Definitions whose Go source is not part of the
code under verification (only its tests are) are modelled from the
specification and marked as such in their doc comments.
-/

namespace Axe

/-! ## Decimal digit parsing (used by `parseIOSVersion` and sequence numbers) -/
/-- Numeric value of a decimal digit character, as in `strconv.Atoi`. -/
def digitVal (c : Char) : Nat := c.toNat - '0'.toNat

/-- Parse a list of decimal digit characters as a natural number
(most significant digit first), as `strconv.Atoi` does for all-digit input. -/
def charsToNat (l : List Char) : Nat :=
  l.foldl (fun acc c => acc * 10 + digitVal c) 0
/-! ## `parseIOSVersion` (src/cmd/internal/platform/simulator.go)

Go uses `regexp.MustCompile("iOS-(\\d+)-(\\d+)")` and
`FindStringSubmatch`.  For this pattern, Go's leftmost-first matching is
equivalent to: scan left to right for the first position at which the
literal `iOS-` is followed by a nonempty maximal digit run, a `-`, and a
further nonempty digit run; the two submatches are the two maximal digit
runs.  (No shorter digit run can help the match: a proper prefix of a
digit run is followed by a digit, never by `-`.) -/

/-- match `(\d+)-(\d+)` at the head: a nonempty maximal digit run, `-`,
then a nonempty maximal digit run. -/
def matchVersionDigits (rest : List Char) : Option (Nat × Nat) :=
  if rest.takeWhile Char.isDigit = [] then none
  else
    match rest.dropWhile Char.isDigit with
    | '-' :: rest2 =>
      if rest2.takeWhile Char.isDigit = [] then none
      else some (charsToNat (rest.takeWhile Char.isDigit),
                 charsToNat (rest2.takeWhile Char.isDigit))
    | _ => none

def matchIOSAt (l : List Char) : Option (Nat × Nat) :=
  match l with
  | 'i' :: 'O' :: 'S' :: '-' :: rest => matchVersionDigits rest
  | _ => none

def findIOS : List Char → Option (Nat × Nat)
  | [] => none
  | c :: rest =>
    match matchIOSAt (c :: rest) with
    | some r => some r
    | none => findIOS rest

def parseIOSVersion (runtime : String) : Int × Int :=
  match findIOS runtime.data with
  | some (maj, min) => ((maj : Int), (min : Int))
  | none => (-1, -1)
structure SimDevice where
  name : String
  udid : String
  state : String
  deviceTypeIdentifier : String
  deriving DecidableEq

/-- `strings.Contains`: does `needle` occur as a contiguous substring of the list? -/
def hasSubstring (needle : List Char) : List Char → Bool
  | [] => needle.isEmpty
  | c :: rest => needle.isPrefixOf (c :: rest) || hasSubstring needle rest

def isIPhone (d : SimDevice) : Bool := hasSubstring "iPhone".data d.name.data

structure BestState where
  best : SimDevice
  bestRuntime : String
  bestVersion : Int × Int

def beats (v bv : Int × Int) (n bn : String) : Prop :=
  bv.1 < v.1 ∨ (v.1 = bv.1 ∧ bv.2 < v.2) ∨ (v = bv ∧ bn < n)

instance (v bv : Int × Int) (n bn : String) : Decidable (beats v bv n bn) := by
  unfold beats; infer_instance

def considerDevice (rt : String) (v : Int × Int) (st : BestState) (d : SimDevice) : BestState :=
  if isIPhone d then
    if beats v st.bestVersion d.name st.best.name then ⟨d, rt, v⟩ else st
  else st

def initialBest : BestState := ⟨⟨"", "", "", ""⟩, "", (0, 0)⟩

def findLatestIPhone (groups : List (String × List SimDevice)) :
    Except String (SimDevice × String) :=
  let final := groups.foldl
    (fun st p =>
      if (parseIOSVersion p.1).1 < 0 then st
      else p.2.foldl (considerDevice p.1 (parseIOSVersion p.1)) st)
    initialBest
  if final.best.udid = "" then Except.error "no available iPhone simulator found"
  else Except.ok (final.best, final.bestRuntime)

def iosCandidates (groups : List (String × List SimDevice)) : List (SimDevice × String) :=
  groups.flatMap fun p =>
    if (parseIOSVersion p.1).1 < 0 then []
    else (p.2.filter isIPhone).map fun d => (d, p.1)
def maximalFor (cands : List (SimDevice × String)) (st : BestState) : Prop :=
  ∀ c ∈ cands, ¬ beats (parseIOSVersion c.2) st.bestVersion c.1.name st.best.name

def stateInv (cands : List (SimDevice × String)) (st : BestState) : Prop :=
  (st = initialBest ∧ cands = []) ∨
  ((st.best, st.bestRuntime) ∈ cands ∧ st.bestVersion = parseIOSVersion st.bestRuntime ∧
    isIPhone st.best ∧ maximalFor cands st)
/-- Outcome of `ResolveAxeSimulator`: either an existing device is used
(no mutation), the call fails, or a `simctl create` is issued. -/
inductive ResolveOutcome where
  | useDevice (udid : String)
  | notFoundError (preferred : String)
  | autoCreate (name deviceType runtime : String)
  | findError (msg : String)
  deriving DecidableEq

/-- Priorities 3 and 4 of the resolution: reuse the first existing device,
else auto-create from the latest available iPhone. -/
def resolveFallback (devices : List SimDevice)
    (available : List (String × List SimDevice)) : ResolveOutcome :=
  match devices with
  | d :: _ => ResolveOutcome.useDevice d.udid
  | [] =>
    match findLatestIPhone available with
    | Except.ok (source, runtime) =>
      ResolveOutcome.autoCreate ("axe " ++ source.name ++ " (1)")
        source.deviceTypeIdentifier runtime
    | Except.error e => ResolveOutcome.findError e

def ResolveAxeSimulator (preferredUDID : String) (devices : List SimDevice)
    (defaultUDID : Option String)
    (available : List (String × List SimDevice)) : ResolveOutcome :=
  if preferredUDID ≠ "" then
    match devices.find? (fun d => d.udid == preferredUDID) with
    | some d => ResolveOutcome.useDevice d.udid
    | none => ResolveOutcome.notFoundError preferredUDID
  else
    match defaultUDID with
    | some du =>
      if du ≠ "" then
        match devices.find? (fun d => d.udid == du) with
        | some d => ResolveOutcome.useDevice d.udid
        | none => resolveFallback devices available
      else resolveFallback devices available
    | none => resolveFallback devices available
inductive FsOp where
  | write
  | create
  | remove
  | rename
  | chmod
  deriving DecidableEq

structure FsEvent where
  name : String
  ops : List FsOp

def FsEvent.has (e : FsEvent) (op : FsOp) : Bool := e.ops.contains op

/-- `strings.HasSuffix(s, suffixStr)`. -/
def hasSuffix (s suffixStr : String) : Bool := suffixStr.data.isSuffixOf s.data

/-- Split a character list at a separator character (`strings.Split`). -/
def splitOnChar (sep : Char) : List Char → List (List Char)
  | [] => [[]]
  | c :: rest =>
    let r := splitOnChar sep rest
    if c = sep then [] :: r
    else
      match r with
      | h :: t => (c :: h) :: t
      | [] => [[c]]

/-- One step of Go's `path/filepath.Clean` element processing
(accumulator holds the output elements in reverse). -/
def cleanStep (rooted : Bool) (acc : List (List Char)) (comp : List Char) : List (List Char) :=
  if comp = [] ∨ comp = ['.'] then acc
  else if comp = ['.', '.'] then
    match acc with
    | [] => if rooted then [] else [['.', '.']]
    | a :: rest => if a = ['.', '.'] then comp :: acc else rest
  else comp :: acc

def joinComps : List (List Char) → List Char
  | [] => []
  | [c] => c
  | c :: rest => c ++ '/' :: joinComps rest

/-- Go's `path/filepath.Clean` on slash-separated paths: lexically remove
`.` and `..` elements, duplicate separators and trailing slashes. -/
def filepathClean (path : String) : String :=
  if path.data = [] then "."
  else
    let rooted := path.data.head? = some '/'
    let comps := ((splitOnChar '/' path.data).foldl (cleanStep rooted) []).reverse
    let out := joinComps comps
    if rooted then String.mk ('/' :: out)
    else if out = [] then "." else String.mk out

structure Chan where
  cap : Nat
  buf : List String
  deriving DecidableEq

/-- A non-blocking channel send: append when there is room, drop the
value when the buffer is full. -/
def sendNonBlocking (path : String) (ch : Chan) : Chan :=
  if ch.buf.length < ch.cap then ⟨ch.cap, ch.buf ++ [path]⟩ else ch

def broadcast (path : String) (listeners : List (String × Chan)) : List (String × Chan) :=
  listeners.map fun l => (l.1, sendNonBlocking path l.2)

def loopStep (e : FsEvent) (listeners : List (String × Chan)) : List (String × Chan) :=
  if ¬ hasSuffix e.name ".swift" then listeners
  else if ¬ e.has FsOp.write ∧ ¬ e.has FsOp.create then listeners
  else broadcast (filepathClean e.name) listeners
/-! ## preview command configuration (src/cmd/axe/preview.go) -/

structure PreviewFlags where
  project : String
  workspace : String
  scheme : String
  configuration : String
  device : String
  deriving DecidableEq

structure MergedConfig where
  project : String
  workspace : String
  scheme : String
  configuration : String
  device : String
  deriving DecidableEq

/-- `.axerc` fallback for one flag: the rc value is taken only when the
explicit flag is empty and the rc value is non-empty. -/
def mergeField (flag rcVal : String) : String :=
  if flag = "" ∧ rcVal ≠ "" then rcVal else flag

/-- Validation after merging, mirroring the three error checks of
`previewCmd.RunE`. -/
def validateConfig (c : MergedConfig) : Except String MergedConfig :=
  if c.project ≠ "" ∧ c.workspace ≠ "" then
    Except.error "--project and --workspace are mutually exclusive"
  else if c.project = "" ∧ c.workspace = "" then
    Except.error "either --project or --workspace is required. Use flags or set PROJECT/WORKSPACE in .axerc"
  else if c.scheme = "" then
    Except.error "--scheme is required. Use the flag or set SCHEME in .axerc"
  else Except.ok c

/-- The configuration part of `previewCmd.RunE`: fall back to `.axerc`
for unset flags, then validate. -/
def previewRunE (flags : PreviewFlags) (rc : String → String) : Except String MergedConfig :=
  validateConfig
    ⟨mergeField flags.project (rc "PROJECT"),
     mergeField flags.workspace (rc "WORKSPACE"),
     mergeField flags.scheme (rc "SCHEME"),
     mergeField flags.configuration (rc "CONFIGURATION"),
     mergeField flags.device (rc "DEVICE")⟩
/-! ## Preview directory layout -/

/-- Directory layout, as component lists relative to the filesystem root;
the first component is the per-user cache directory. -/
structure PreviewDirs where
  Root : List String
  Build : List String
  Session : List String
  Thunk : List String
  Loader : List String
  Staging : List String
  Socket : List String
  deriving DecidableEq

/-- Render a component list as a path string. -/
def renderPath (comps : List String) : String := String.intercalate "/" comps

/-- The macOS `sun_path` limit for Unix domain sockets. -/
def maxSunPathLen : Nat := 104

/-- Number of bytes in the UTF-8 encoding of a character (what Go's
`len` counts per rune). -/
def charUtf8Size (c : Char) : Nat :=
  if c.toNat < 0x80 then 1
  else if c.toNat < 0x800 then 2
  else if c.toNat < 0x10000 then 3
  else 4

/-- Go's `len` on a string: the length of its UTF-8 encoding in bytes. -/
def utf8Length (s : String) : Nat :=
  s.data.foldl (fun acc c => acc + charUtf8Size c) 0

/-- Modelled from the spec: `Root = <cache>/<hash(project_key)>` where the
hash is an unspecified deterministic digest of the project key, required
by the spec's `Session` uniqueness invariant to be collision-free; it is
modelled as the identity encoding. -/
def hashProjectKey (projectKey : String) : String := projectKey

/-- Modelled from the spec: the layout derived from (project key, udid) —
`Build = Root/build`, `Session = Root/devices/<udid>`, `Thunk`, `Loader`
and `Staging` under `Session`, and `Socket` a short path under `Root`. -/
def previewDirsRaw (cache projectKey udid : String) : PreviewDirs :=
  let root := [cache, hashProjectKey projectKey]
  let session := root ++ ["devices", udid]
  ⟨root, root ++ ["build"], session, session ++ ["thunk"], session ++ ["loader"],
   session ++ ["staging"], root ++ ["socket"]⟩

/-- Modelled from the spec: `newPreviewDirs` derives the layout and MUST
verify the socket path's UTF-8 byte length against the `sun_path` limit
at construction time. -/
def newPreviewDirs (cache projectKey udid : String) : Option PreviewDirs :=
  let dirs := previewDirsRaw cache projectKey udid
  if utf8Length (renderPath dirs.Socket) < maxSunPathLen then some dirs else none
structure ManagedSimulator where
  name : String
  udid : String
  deriving DecidableEq

/-- Strip an expected leading segment from a character list, returning
the remainder on success. -/
def stripLeading : List Char → List Char → Option (List Char)
  | [], l => some l
  | _ :: _, [] => none
  | p :: ps, c :: cs => if p = c then stripLeading ps cs else none

/-- Modelled from the spec: device names managed by the axe set have the
form `axe <base> (<N>)`; `seqNumber` extracts `N` from such a name and
rejects every other name (old-style names without a sequence number,
other base names). -/
def seqNumber (base : String) (nm : String) : Option Nat :=
  match stripLeading ("axe ".data ++ base.data ++ " (".data) nm.data with
  | none => none
  | some rest =>
    let ds := rest.takeWhile Char.isDigit
    if ds ≠ [] ∧ rest.dropWhile Char.isDigit = [')'] then some (charsToNat ds) else none

/-- Modelled from the spec: `next_sequence_number(devices, base)` returns
`max(existing N for base) + 1`, or `1` if none; computed as a running
maximum over the device list. -/
def nextSequenceNumber (devices : List ManagedSimulator) (base : String) : Nat :=
  (devices.foldl (fun acc d =>
    match seqNumber base d.name with
    | some n => max acc n
    | none => acc) 0) + 1
/-! ## Companion handshake -/

inductive JsonVal where
  | num (n : Nat)
  | str (s : String)
  deriving DecidableEq

def lbrace : Char := Char.ofNat 123
def rbrace : Char := Char.ofNat 125

def parseJString : List Char → Option (String × List Char)
  | '"' :: rest =>
    match rest.dropWhile (fun c => c ≠ '"') with
    | '"' :: rest2 => some (String.mk (rest.takeWhile (fun c => c ≠ '"')), rest2)
    | _ => none
  | _ => none

def parseJNum (l : List Char) : Option (Nat × List Char) :=
  if l.takeWhile Char.isDigit = [] then none
  else some (charsToNat (l.takeWhile Char.isDigit), l.dropWhile Char.isDigit)

def parseJVal (l : List Char) : Option (JsonVal × List Char) :=
  match parseJString l with
  | some (s, rest) => some (JsonVal.str s, rest)
  | none =>
    match parseJNum l with
    | some (n, rest) => some (JsonVal.num n, rest)
    | none => none

def parsePairsAux : Nat → List Char → Option (List (String × JsonVal) × List Char)
  | 0, _ => none
  | fuel+1, l =>
    match parseJString l with
    | none => none
    | some (k, rest) =>
      match rest with
      | ':' :: rest2 =>
        match parseJVal rest2 with
        | none => none
        | some (v, rest3) =>
          match rest3 with
          | ',' :: rest4 =>
            match parsePairsAux fuel rest4 with
            | some (ps, rest5) => some ((k, v) :: ps, rest5)
            | none => none
          | _ => some ([(k, v)], rest3)
      | _ => none

/-- Parse a compact flat JSON object (string keys, number or string
values), the shape of every idb_companion handshake line. -/
def parseJsonObject (line : String) : Option (List (String × JsonVal)) :=
  match line.data with
  | [] => none
  | c :: rest =>
    if c = lbrace then
      if rest = [rbrace] then some []
      else
        match parsePairsAux rest.length rest with
        | some (ps, [r]) => if r = rbrace then some ps else none
        | _ => none
    else none

def lookupKey (obj : List (String × JsonVal)) (k : String) : Option JsonVal :=
  (obj.find? (fun p => p.1 == k)).map (fun p => p.2)

/-- Modelled from the spec: `parseCompanionPort` returns the companion's
gRPC port when the line is a JSON object with a non-zero `grpc_port`,
and nothing for every other line. -/
def parseCompanionPort (line : String) : Option Nat :=
  match parseJsonObject line with
  | none => none
  | some obj =>
    match lookupKey obj "grpc_port" with
    | some (JsonVal.num n) => if n = 0 then none else some n
    | _ => none

def scanForPort : List String → Option Nat
  | [] => none
  | l :: rest =>
    match parseCompanionPort l with
    | some p => some p
    | none => scanForPort rest

/-- Modelled from the spec: `StartWith` reads stdout lines until one
yields a usable port, failing when stdout closes without one. -/
def StartWith (lines : List String) : Except String Nat :=
  match scanForPort lines with
  | some p => Except.ok p
  | none => Except.error "idb_companion did not output a port"
/-! ## Headless boot (C5) -/

def bootedLine (line : String) : Bool :=
  match parseJsonObject line with
  | none => false
  | some obj =>
    match lookupKey obj "state" with
    | some (JsonVal.str s) => s == "Booted"
    | _ => false

inductive ProcStatus where
  | running
  | exited (err : Option String)

structure CompanionHandle where
  doneClosed : Bool
  exitErr : Option String
  deriving DecidableEq

/-- Modelled from the spec: the monitor goroutine closes `done` when the
subprocess's `Wait` returns and records the exit error; while the
subprocess runs, `done` stays open and `Err` is nil. -/
def companionObs : ProcStatus → CompanionHandle
  | ProcStatus.running => ⟨false, none⟩
  | ProcStatus.exited e => ⟨true, e⟩

/-- Modelled from the spec: `BootHeadlessWith` reads stdout lines until
one reports `"state":"Booted"`, failing when stdout closes without one;
on success the returned handle observes the subprocess status. -/
def BootHeadlessWith (lines : List String) : Except String (ProcStatus → CompanionHandle) :=
  if lines.any bootedLine then Except.ok companionObs
  else Except.error "idb_companion did not report Booted state"
/-! ## Companion.Stop (C10) -/

structure Companion where
  process : Option Nat

/-- Modelled from the spec: `close()`/`Stop` is idempotent; with no
underlying process there is nothing to signal and it returns without
error. -/
def Companion.Stop (c : Companion) : Except String Unit :=
  match c.process with
  | none => Except.ok ()
  | some _ => Except.ok ()
/-! ## Proofs -/
lemma takeWhile_append_all (p : Char → Bool) (l r : List Char) (c : Char)
    (h : ∀ x ∈ l, p x) (hc : ¬ p c) : (l ++ c :: r).takeWhile p = l := by
  induction l with
  | nil => simp [List.takeWhile, hc]
  | cons a t ih => simp_all [List.takeWhile]

lemma dropWhile_append_all (p : Char → Bool) (l r : List Char) (c : Char)
    (h : ∀ x ∈ l, p x) (hc : ¬ p c) : (l ++ c :: r).dropWhile p = c :: r := by
  induction l with
  | nil => simp [List.dropWhile, hc]
  | cons a t ih => simp_all [List.dropWhile]

lemma matchIOSAt_pattern (d1 d2 : List Char)
    (h1 : d1 ≠ []) (hd1 : ∀ c ∈ d1, c.isDigit) (h2 : d2 ≠ []) (hd2 : ∀ c ∈ d2, c.isDigit) :
    matchIOSAt ('i' :: 'O' :: 'S' :: '-' ::(d1 ++ '-' ::d2)) = some (charsToNat d1, charsToNat d2) := by
  have ht : (d1 ++ '-' ::d2).takeWhile Char.isDigit = d1 :=
    takeWhile_append_all _ _ _ _ hd1 (by decide)
  have hd : (d1 ++ '-' ::d2).dropWhile Char.isDigit = '-' ::d2 :=
    dropWhile_append_all _ _ _ _ hd1 (by decide)
  have ht2 : d2.takeWhile Char.isDigit = d2 := List.takeWhile_eq_self_iff.mpr hd2
  simp only [matchIOSAt, matchVersionDigits, ht, hd, ht2]
  simp [h1, h2]

lemma matchIOSAt_some_shape (b : List Char) (r : Nat × Nat) (h : matchIOSAt b = some r) :
    ∃ d1 d2 rest, d1 ≠ [] ∧ (∀ c ∈ d1, c.isDigit) ∧ d2 ≠ [] ∧ (∀ c ∈ d2, c.isDigit) ∧
      b = 'i' :: 'O' :: 'S' :: '-' ::(d1 ++ '-' ::(d2 ++ rest)) := by
  rw [matchIOSAt.eq_def] at h
  split at h
  swap
  · exact absurd h (by simp)
  rename_i rest
  rw [matchVersionDigits] at h
  split_ifs at h with he1
  split at h
  swap
  · exact absurd h (by simp)
  rename_i rest2 heq2
  split_ifs at h with he2
  refine ⟨rest.takeWhile Char.isDigit, rest2.takeWhile Char.isDigit,
      rest2.dropWhile Char.isDigit, he1, ?_, he2, ?_, ?_⟩
  · exact fun c hc => List.mem_takeWhile_imp hc
  · exact fun c hc => List.mem_takeWhile_imp hc
  · have hsplit : rest = rest.takeWhile Char.isDigit ++ '-' :: rest2 := by
      rw [← heq2, List.takeWhile_append_dropWhile]
    conv_lhs => rw [hsplit]
    simp only [List.takeWhile_append_dropWhile]

lemma findIOS_append_none : ∀ (a b : List Char), findIOS (a ++ b) = none → matchIOSAt b = none := by
  intro a
  induction a with
  | nil =>
    intro b h
    cases b with
    | nil => rfl
    | cons c r =>
      rw [List.nil_append, findIOS] at h
      cases hm : matchIOSAt (c :: r) with
      | none => rfl
      | some v => rw [hm] at h; simp at h
  | cons x a' ih =>
    intro b h
    rw [List.cons_append, findIOS] at h
    cases hm : matchIOSAt (x :: (a' ++ b)) with
    | none => rw [hm] at h; exact ih b h
    | some v => rw [hm] at h; simp at h

lemma findIOS_append_ne_none (a b : List Char) (h : matchIOSAt b ≠ none) :
    findIOS (a ++ b) ≠ none :=
  fun hn => h (findIOS_append_none a b hn)


lemma findIOS_some_split (l : List Char) (r : Nat × Nat) (h : findIOS l = some r) :
    ∃ a b, l = a ++ b ∧ matchIOSAt b = some r := by
  induction l with
  | nil => rw [findIOS] at h; simp at h
  | cons c rest ih =>
    rw [findIOS] at h
    cases hm : matchIOSAt (c :: rest) with
    | some v =>
      rw [hm] at h; simp at h
      exact ⟨[], c :: rest, by simp, by rw [hm, h]⟩
    | none =>
      rw [hm] at h
      obtain ⟨a, b, hab, hb⟩ := ih h
      exact ⟨c :: a, b, by simp [hab], hb⟩

lemma matchIOSAt_cons_ne (c : Char) (l : List Char) (h : c ≠ 'i') : matchIOSAt (c :: l) = none := by
  rw [matchIOSAt.eq_def]
  split
  · rename_i heq; injection heq with h1 _; exact absurd h1 h
  · rfl

lemma matchIOSAt_cons₂_ne (c : Char) (l : List Char) (h : c ≠ 'O') :
    matchIOSAt ('i' :: c :: l) = none := by
  rw [matchIOSAt.eq_def]
  split
  · rename_i heq; injection heq with _ h2; injection h2 with h2' _; exact absurd h2' h
  · rfl

lemma findIOS_cons_ne (c : Char) (l : List Char) (h : c ≠ 'i') :
    findIOS (c :: l) = findIOS l := by
  rw [findIOS, matchIOSAt_cons_ne c l h]

lemma findIOS_cons₂_ne (c : Char) (l : List Char) (h : c ≠ 'O') :
    findIOS ('i' :: c :: l) = findIOS (c :: l) := by
  rw [findIOS, matchIOSAt_cons₂_ne c l h]

lemma findIOS_simctl_prefix (l : List Char) :
    findIOS ("com.apple.CoreSimulator.SimRuntime.".data ++ l) = findIOS l := by
  show findIOS ('c' :: 'o' :: 'm' :: '.' :: 'a' :: 'p' :: 'p' :: 'l' :: 'e' :: '.' :: 'C' :: 'o' :: 'r' :: 'e' :: 'S' :: 'i' :: 'm' :: 'u' :: 'l' :: 'a' :: 't' :: 'o' :: 'r' :: '.' :: 'S' :: 'i' :: 'm' :: 'R' :: 'u' :: 'n' :: 't' :: 'i' :: 'm' :: 'e' :: '.' ::l) = findIOS l
  repeat (first
    | rw [findIOS_cons₂_ne _ _ (by decide)]
    | rw [findIOS_cons_ne _ _ (by decide)])

/-- C9: `parseIOSVersion` maps every simctl runtime key of the form
`…iOS-<major>-<minor>` to the pair of parsed integers, and maps every
key containing no `iOS-<digits>-<digits>` pattern to the sentinel
`(-1, -1)`; being a total function, it never fails on any input. -/
theorem parseIOSVersion_spec :
    (∀ s : String,
      (∀ d1 d2 : List Char, d1 ≠ [] → (∀ c ∈ d1, c.isDigit) → d2 ≠ [] → (∀ c ∈ d2, c.isDigit) →
        ¬ ('i' :: 'O' :: 'S' :: '-' ::(d1 ++ '-' ::d2)) <:+: s.data) →
      parseIOSVersion s = (-1, -1))
    ∧ (∀ d1 d2 : List Char, d1 ≠ [] → (∀ c ∈ d1, c.isDigit) → d2 ≠ [] → (∀ c ∈ d2, c.isDigit) →
      parseIOSVersion ⟨"com.apple.CoreSimulator.SimRuntime.iOS-".data ++ (d1 ++ '-' ::d2)⟩
        = ((charsToNat d1 : Int), (charsToNat d2 : Int))) := by
  constructor
  · intro s h
    rw [parseIOSVersion]
    cases hf : findIOS s.data with
    | none => rfl
    | some r =>
      exfalso
      obtain ⟨a, b, hab, hb⟩ := findIOS_some_split _ _ hf
      obtain ⟨d1, d2, rest3, h1, hd1, h2, hd2, hshape⟩ := matchIOSAt_some_shape _ _ hb
      refine h d1 d2 h1 hd1 h2 hd2 ⟨a, rest3, ?_⟩
      rw [hab, hshape]
      simp
  · intro d1 d2 h1 hd1 h2 hd2
    rw [parseIOSVersion]
    have hsplit : ("com.apple.CoreSimulator.SimRuntime.iOS-".data ++ (d1 ++ '-' ::d2) : List Char)
        = "com.apple.CoreSimulator.SimRuntime.".data ++ ('i' :: 'O' :: 'S' :: '-' ::(d1 ++ '-' ::d2)) := rfl
    show (match findIOS ("com.apple.CoreSimulator.SimRuntime.iOS-".data ++ (d1 ++ '-' ::d2)) with
      | some (maj, min) => ((maj : Int), (min : Int))
      | none => (-1, -1)) = ((charsToNat d1 : Int), (charsToNat d2 : Int))
    rw [hsplit, findIOS_simctl_prefix, findIOS, matchIOSAt_pattern d1 d2 h1 hd1 h2 hd2]

theorem parseIOSVersion_witness :
    parseIOSVersion "com.apple.CoreSimulator.SimRuntime.iOS-18-2" = (18, 2) := by
  have := parseIOSVersion_spec.2 ['1','8'] ['2'] (by decide) (by decide) (by decide) (by decide)
  simpa using this
lemma beats_trans {v1 v2 v3 : Int × Int} {n1 n2 n3 : String}
    (h21 : beats v2 v1 n2 n1) (h32 : beats v3 v2 n3 n2) : beats v3 v1 n3 n1 := by
  unfold beats at *
  obtain ⟨a1, b1⟩ := v1
  obtain ⟨a2, b2⟩ := v2
  obtain ⟨a3, b3⟩ := v3
  simp only [Prod.mk.injEq] at *
  rcases h21 with h | ⟨he, h⟩ | ⟨⟨he1, he2⟩, hn⟩ <;>
    rcases h32 with g | ⟨ge, g⟩ | ⟨⟨ge1, ge2⟩, gn⟩
  · exact Or.inl (by omega)
  · exact Or.inl (by omega)
  · exact Or.inl (by omega)
  · exact Or.inl (by omega)
  · exact Or.inr (Or.inl ⟨by omega, by omega⟩)
  · exact Or.inr (Or.inl ⟨by omega, by omega⟩)
  · exact Or.inl (by omega)
  · exact Or.inr (Or.inl ⟨by omega, by omega⟩)
  · exact Or.inr (Or.inr ⟨⟨by omega, by omega⟩, lt_trans hn gn⟩)

lemma beats_irrefl (v : Int × Int) (n : String) : ¬ beats v v n n := by
  unfold beats
  rintro (h | ⟨_, h⟩ | ⟨_, h⟩)
  · exact lt_irrefl _ h
  · exact lt_irrefl _ h
  · exact lt_irrefl _ h

lemma empty_lt_of_ne (s : String) (h : s ≠ "") : ("" : String) < s := by
  rw [String.lt_iff_toList_lt]
  cases hs : s.toList with
  | nil =>
    exfalso
    apply h
    cases s with
    | mk data => simp [String.toList] at hs; simp [hs]
  | cons c r => exact List.nil_lt_cons c r

lemma isIPhone_name_ne (d : SimDevice) (h : isIPhone d) : d.name ≠ "" := by
  intro he
  rw [isIPhone, he] at h
  simp [hasSubstring] at h
lemma parse_nonneg (rt : String) (h : 0 ≤ (parseIOSVersion rt).1) :
    0 ≤ (parseIOSVersion rt).2 := by
  rw [parseIOSVersion] at h ⊢
  cases hf : findIOS rt.data with
  | none => rw [hf] at h; norm_num at h
  | some r => obtain ⟨a, b⟩ := r; simp

lemma beats_initial (v : Int × Int) (n : String) (h1 : 0 ≤ v.1) (h2 : 0 ≤ v.2)
    (hn : ("" : String) < n) : beats v (0, 0) n "" := by
  unfold beats
  obtain ⟨a, b⟩ := v
  simp only at h1 h2 ⊢
  rcases lt_or_eq_of_le h1 with h | h
  · exact Or.inl h
  · rcases lt_or_eq_of_le h2 with g | g
    · exact Or.inr (Or.inl ⟨h.symm, g⟩)
    · exact Or.inr (Or.inr ⟨by simp [← h, ← g], hn⟩)

lemma foldl_considerDevice_inv (rt : String) (hv : 0 ≤ (parseIOSVersion rt).1) :
    ∀ (ds : List SimDevice) (C : List (SimDevice × String)) (st : BestState),
      stateInv C st →
      stateInv (C ++ (ds.filter isIPhone).map (fun d => (d, rt)))
        (ds.foldl (considerDevice rt (parseIOSVersion rt)) st) := by
  intro ds
  induction ds with
  | nil => intro C st h; simpa using h
  | cons d ds' ih =>
    intro C st h
    rw [List.foldl_cons]
    by_cases hip : isIPhone d
    · have hfil : (d :: ds').filter isIPhone = d :: ds'.filter isIPhone := by
        simp [List.filter, hip]
      rw [hfil, List.map_cons]
      have hassoc : C ++ ((d, rt) :: (ds'.filter isIPhone).map (fun d => (d, rt)))
          = (C ++ [(d, rt)]) ++ (ds'.filter isIPhone).map (fun d => (d, rt)) := by simp
      rw [hassoc]
      apply ih
      -- establish invariant for one step
      rw [considerDevice, if_pos hip]
      by_cases hb : beats (parseIOSVersion rt) st.bestVersion d.name st.best.name
      · rw [if_pos hb]
        right
        refine ⟨by simp, rfl, hip, ?_⟩
        intro c hc
        rcases List.mem_append.mp hc with hcC | hcd
        · rcases h with ⟨hst, hC⟩ | ⟨_, hver, _, hmax⟩
          · rw [hC] at hcC; simp at hcC
          · intro hbc
            exact hmax c hcC (beats_trans hb hbc)
        · simp at hcd
          subst hcd
          simpa using beats_irrefl _ _
      · rw [if_neg hb]
        rcases h with ⟨hst, hC⟩ | ⟨hmem, hver, hiph, hmax⟩
        · -- st is the initial state; an iPhone candidate always beats it
          exfalso
          apply hb
          rw [hst]
          show beats (parseIOSVersion rt) (0, 0) d.name ""
          exact beats_initial _ _ hv (parse_nonneg rt hv)
            (empty_lt_of_ne _ (isIPhone_name_ne d hip))
        · right
          refine ⟨List.mem_append_left _ hmem, hver, hiph, ?_⟩
          intro c hc
          rcases List.mem_append.mp hc with hcC | hcd
          · exact hmax c hcC
          · simp at hcd
            subst hcd
            simpa using hb
    · have hfil : (d :: ds').filter isIPhone = ds'.filter isIPhone := by
        simp [List.filter, hip]
      rw [hfil, considerDevice, if_neg hip]
      exact ih C st h


lemma foldl_groups_inv :
    ∀ (groups : List (String × List SimDevice)) (C : List (SimDevice × String)) (st : BestState),
      stateInv C st →
      stateInv (C ++ iosCandidates groups)
        (groups.foldl
          (fun st p =>
            if (parseIOSVersion p.1).1 < 0 then st
            else p.2.foldl (considerDevice p.1 (parseIOSVersion p.1)) st) st) := by
  intro groups
  induction groups with
  | nil => intro C st h; simpa [iosCandidates] using h
  | cons p gs ih =>
    intro C st h
    rw [List.foldl_cons]
    by_cases hneg : (parseIOSVersion p.1).1 < 0
    · rw [if_pos hneg]
      have : iosCandidates (p :: gs) = iosCandidates gs := by
        simp [iosCandidates, hneg]
      rw [this]
      exact ih C st h
    · rw [if_neg hneg]
      have : iosCandidates (p :: gs)
          = ((p.2.filter isIPhone).map (fun d => (d, p.1))) ++ iosCandidates gs := by
        simp [iosCandidates, hneg]
      rw [this, ← List.append_assoc]
      exact ih _ _ (foldl_considerDevice_inv p.1 (le_of_not_lt hneg) p.2 C st h)

lemma mem_iosCandidates (groups : List (String × List SimDevice)) (d : SimDevice) (rt : String)
    (h : (d, rt) ∈ iosCandidates groups) : ∃ p ∈ groups, p.1 = rt ∧ d ∈ p.2 := by
  rw [iosCandidates, List.mem_flatMap] at h
  obtain ⟨p, hp, hmem⟩ := h
  refine ⟨p, hp, ?_⟩
  split at hmem
  · simp at hmem
  · rw [List.mem_map] at hmem
    obtain ⟨d', hd', heq⟩ := hmem
    simp only [Prod.mk.injEq] at heq
    obtain ⟨h1, h2⟩ := heq
    exact ⟨h2, h1 ▸ List.mem_of_mem_filter hd'⟩

/-- C3: `findLatestIPhone` selects, among all available devices whose
name contains "iPhone" in runtimes that parse as iOS versions (the
`iosCandidates`), a device such that no candidate beats it — i.e. one
with the maximal (major, minor) iOS version, version ties broken by the
lexicographically largest device name; non-iOS runtimes contribute no
candidates, and when there is no candidate the function returns an
error. -/
theorem findLatestIPhone_spec (groups : List (String × List SimDevice))
    (hudid : ∀ p ∈ groups, ∀ d ∈ p.2, d.udid ≠ "") :
    (iosCandidates groups = [] →
      findLatestIPhone groups = Except.error "no available iPhone simulator found")
    ∧ (∀ d rt, findLatestIPhone groups = Except.ok (d, rt) →
        (d, rt) ∈ iosCandidates groups ∧
        ∀ c ∈ iosCandidates groups,
          ¬ beats (parseIOSVersion c.2) (parseIOSVersion rt) c.1.name d.name)
    ∧ (iosCandidates groups ≠ [] → ∃ d rt, findLatestIPhone groups = Except.ok (d, rt)) := by
  have hinv := foldl_groups_inv groups [] initialBest (Or.inl ⟨rfl, rfl⟩)
  rw [List.nil_append] at hinv
  rw [findLatestIPhone]
  refine ⟨?_, ?_, ?_⟩
  · intro hempty
    rcases hinv with ⟨hst, _⟩ | ⟨hmem, _, _, _⟩
    · rw [hst]; rfl
    · rw [hempty] at hmem; simp at hmem
  · intro d rt hok
    rcases hinv with ⟨hst, hC⟩ | ⟨hmem, hver, hiph, hmax⟩
    · rw [hst] at hok; simp [initialBest] at hok
    · split at hok
      · simp at hok
      · simp only [Except.ok.injEq, Prod.mk.injEq] at hok
        obtain ⟨h1, h2⟩ := hok
        constructor
        · rw [← h1, ← h2]; exact hmem
        · intro c hc
          have := hmax c hc
          rw [← h1, ← h2, ← hver]
          exact this
  · intro hne
    rcases hinv with ⟨_, hC⟩ | ⟨hmem, hver, hiph, hmax⟩
    · exact absurd hC hne
    · obtain ⟨p, hp, hrt, hdp⟩ := mem_iosCandidates _ _ _ hmem
      have hud := hudid p hp _ hdp
      rw [if_neg hud]
      exact ⟨_, _, rfl⟩
/-- Witness for C3 at a concrete device listing. -/
theorem findLatestIPhone_witness :
    ∃ d rt, findLatestIPhone
        [("com.apple.CoreSimulator.SimRuntime.iOS-18-2",
          [⟨"iPhone 16 Pro", "UD-1", "Shutdown", "dt"⟩])] = Except.ok (d, rt) :=
  (findLatestIPhone_spec
      [("com.apple.CoreSimulator.SimRuntime.iOS-18-2",
        [⟨"iPhone 16 Pro", "UD-1", "Shutdown", "dt"⟩])]
      (by decide)).2.2 (by decide)

/-- C2: `ResolveAxeSimulator` resolves in priority order: a non-empty
preferred UDID is used only when it exists in the device set and
otherwise the call fails with a not-found error (and no `autoCreate` is
issued); otherwise the configured default is used when it exists,
falling through when not; otherwise the first existing device is
reused; and an auto-create can only happen when no preferred UDID was
given and the device set is empty. -/
theorem ResolveAxeSimulator_spec (preferredUDID : String) (devices : List SimDevice)
    (defaultUDID : Option String) (available : List (String × List SimDevice)) :
    (preferredUDID ≠ "" → (∃ d ∈ devices, d.udid = preferredUDID) →
      ResolveAxeSimulator preferredUDID devices defaultUDID available
        = ResolveOutcome.useDevice preferredUDID)
    ∧ (preferredUDID ≠ "" → (∀ d ∈ devices, d.udid ≠ preferredUDID) →
      ResolveAxeSimulator preferredUDID devices defaultUDID available
        = ResolveOutcome.notFoundError preferredUDID)
    ∧ (∀ du, preferredUDID = "" → defaultUDID = some du → du ≠ "" →
        (∃ d ∈ devices, d.udid = du) →
      ResolveAxeSimulator preferredUDID devices defaultUDID available
        = ResolveOutcome.useDevice du)
    ∧ (∀ d rest, preferredUDID = "" → devices = d :: rest →
        (∀ du, defaultUDID = some du → du ≠ "" → ∀ d' ∈ devices, d'.udid ≠ du) →
      ResolveAxeSimulator preferredUDID devices defaultUDID available
        = ResolveOutcome.useDevice d.udid)
    ∧ (∀ nm ty rt, ResolveAxeSimulator preferredUDID devices defaultUDID available
        = ResolveOutcome.autoCreate nm ty rt →
      preferredUDID = "" ∧ devices = []) := by
  refine ⟨?_, ?_, ?_, ?_, ?_⟩
  · intro hne ⟨d, hd, hdu⟩
    rw [ResolveAxeSimulator.eq_def, if_pos hne]
    have : devices.find? (fun d => d.udid == preferredUDID) ≠ none := by
      intro hfn
      rw [List.find?_eq_none] at hfn
      exact hfn d hd (by simp [hdu])
    cases hf : devices.find? (fun d => d.udid == preferredUDID) with
    | none => exact absurd hf this
    | some d' =>
      have := List.find?_some hf
      simp at this
      simp [this]
  · intro hne hall
    rw [ResolveAxeSimulator.eq_def, if_pos hne]
    have : devices.find? (fun d => d.udid == preferredUDID) = none := by
      rw [List.find?_eq_none]
      intro d hd
      simp [hall d hd]
    rw [this]
  · intro du hpe hde hdune ⟨d, hd, hdu⟩
    rw [ResolveAxeSimulator.eq_def, if_neg (by simp [hpe]), hde]
    simp only
    rw [if_pos hdune]
    have : devices.find? (fun d => d.udid == du) ≠ none := by
      intro hfn
      rw [List.find?_eq_none] at hfn
      exact hfn d hd (by simp [hdu])
    cases hf : devices.find? (fun d => d.udid == du) with
    | none => exact absurd hf this
    | some d' =>
      have := List.find?_some hf
      simp at this
      simp [this]
  · intro d rest hpe hdev hnomatch
    rw [ResolveAxeSimulator.eq_def, if_neg (by simp [hpe])]
    have hfall : resolveFallback devices available = ResolveOutcome.useDevice d.udid := by
      rw [hdev, resolveFallback]
    cases hdef : defaultUDID with
    | none => exact hfall
    | some du =>
      simp only
      by_cases hdune : du ≠ ""
      · rw [if_pos hdune]
        have : devices.find? (fun d => d.udid == du) = none := by
          rw [List.find?_eq_none]
          intro d' hd'
          simp [hnomatch du hdef hdune d' hd']
        rw [this]
        exact hfall
      · rw [if_neg hdune]
        exact hfall
  · intro nm ty rt h
    rw [ResolveAxeSimulator.eq_def] at h
    by_cases hpe : preferredUDID ≠ ""
    · rw [if_pos hpe] at h
      cases hf : devices.find? (fun d => d.udid == preferredUDID) with
      | none => rw [hf] at h; simp at h
      | some d' => rw [hf] at h; simp at h
    · rw [if_neg hpe] at h
      push_neg at hpe
      refine ⟨hpe, ?_⟩
      have hfall : ∀ (hh : resolveFallback devices available
          = ResolveOutcome.autoCreate nm ty rt), devices = [] := by
        intro hh
        cases hdev : devices with
        | nil => rfl
        | cons d rest => rw [hdev, resolveFallback] at hh; simp at hh
      cases hdef : defaultUDID with
      | none => rw [hdef] at h; exact hfall h
      | some du =>
        rw [hdef] at h
        simp only at h
        by_cases hdune : du ≠ ""
        · rw [if_pos hdune] at h
          cases hf : devices.find? (fun d => d.udid == du) with
          | none => rw [hf] at h; exact hfall h
          | some d' => rw [hf] at h; simp at h
        · rw [if_neg hdune] at h
          exact hfall h
-- quick sanity checks
example : filepathClean "/p//Sub/../View.swift" = "/p/View.swift" := by decide
example : filepathClean "a/.." = "." := by decide
example : filepathClean "/" = "/" := by decide
example : hasSuffix "/p/View.swift" ".swift" = true := by decide

/-- Witness for C2: an explicitly preferred device that exists in the set
is used as-is. -/
theorem ResolveAxeSimulator_witness :
    ResolveAxeSimulator "UDID-1"
        [⟨"axe iPhone 16 Pro (1)", "UDID-1", "Shutdown", "dt"⟩] none []
      = ResolveOutcome.useDevice "UDID-1" :=
  (ResolveAxeSimulator_spec "UDID-1"
      [⟨"axe iPhone 16 Pro (1)", "UDID-1", "Shutdown", "dt"⟩] none []).1
    (by decide) (by decide)

/-- C6: one iteration of the shared watcher loop forwards an event to
subscribers iff the path ends in ".swift" and the event is a Write or a
Create; the delivered value is the cleaned path, sent to each listener
with a non-blocking send: a listener with a full channel keeps its
buffer unchanged (the event is dropped for it) while every listener
with room receives the path. -/
theorem loopStep_spec (e : FsEvent) (listeners : List (String × Chan)) :
    (¬ (hasSuffix e.name ".swift" = true ∧
        (e.has FsOp.write = true ∨ e.has FsOp.create = true)) →
      loopStep e listeners = listeners)
    ∧ ((hasSuffix e.name ".swift" = true ∧
        (e.has FsOp.write = true ∨ e.has FsOp.create = true)) →
      loopStep e listeners = listeners.map fun l =>
        (l.1, if l.2.buf.length < l.2.cap
              then ⟨l.2.cap, l.2.buf ++ [filepathClean e.name]⟩
              else l.2)) := by
  constructor
  · intro h
    by_cases hs : hasSuffix e.name ".swift" <;>
      by_cases hw : e.has FsOp.write <;>
        by_cases hc : e.has FsOp.create <;>
          simp_all [loopStep]
  · rintro ⟨hs, hop⟩
    have hcond : ¬ (¬ e.has FsOp.write ∧ ¬ e.has FsOp.create) := by
      rcases hop with h | h <;> simp [h]
    rw [loopStep, if_neg (by simp [hs]), if_neg hcond, broadcast]
    rfl

theorem loopStep_witness :
    loopStep ⟨"/p//Sub/../View.swift", [FsOp.write]⟩ [("a", ⟨4, []⟩), ("b", ⟨1, ["old"]⟩)]
      = [("a", ⟨4, ["/p/View.swift"]⟩), ("b", ⟨1, ["old"]⟩)] := by
  have h := (loopStep_spec ⟨"/p//Sub/../View.swift", [FsOp.write]⟩
    [("a", ⟨4, []⟩), ("b", ⟨1, ["old"]⟩)]).2 (by exact ⟨by decide, Or.inl (by decide)⟩)
  rw [h]
  decide
/-- C7: every `.axerc` value is used only when the corresponding
explicit flag is empty, so a non-empty explicit value always overrides
`.axerc`; after merging, the command succeeds iff it is not the case
that both project and workspace are set, neither is set, or the scheme
is empty. -/
theorem previewRunE_spec (flags : PreviewFlags) (rc : String → String) :
    (∀ flag rcVal : String, flag ≠ "" → mergeField flag rcVal = flag)
    ∧ (∀ flag rcVal : String, flag = "" → mergeField flag rcVal = rcVal)
    ∧ ((∃ c, previewRunE flags rc = Except.ok c) ↔
        ¬ ((mergeField flags.project (rc "PROJECT") ≠ ""
              ∧ mergeField flags.workspace (rc "WORKSPACE") ≠ "")
          ∨ (mergeField flags.project (rc "PROJECT") = ""
              ∧ mergeField flags.workspace (rc "WORKSPACE") = "")
          ∨ mergeField flags.scheme (rc "SCHEME") = "")) := by
  refine ⟨?_, ?_, ?_⟩
  · intro flag rcVal h
    rw [mergeField, if_neg (by simp [h])]
  · intro flag rcVal h
    by_cases hr : rcVal = ""
    · rw [mergeField, if_neg (by simp [hr]), h, hr]
    · rw [mergeField, if_pos ⟨h, hr⟩]
  · rw [previewRunE, validateConfig]
    dsimp only
    by_cases h1 : mergeField flags.project (rc "PROJECT") ≠ ""
        ∧ mergeField flags.workspace (rc "WORKSPACE") ≠ ""
    · rw [if_pos h1]
      constructor
      · rintro ⟨c, hc⟩
        exact Except.noConfusion hc
      · intro h
        exact absurd (Or.inl h1) h
    · rw [if_neg h1]
      by_cases h2 : mergeField flags.project (rc "PROJECT") = ""
          ∧ mergeField flags.workspace (rc "WORKSPACE") = ""
      · rw [if_pos h2]
        constructor
        · rintro ⟨c, hc⟩
          exact Except.noConfusion hc
        · intro h
          exact absurd (Or.inr (Or.inl h2)) h
      · rw [if_neg h2]
        by_cases h3 : mergeField flags.scheme (rc "SCHEME") = ""
        · rw [if_pos h3]
          constructor
          · rintro ⟨c, hc⟩
            exact Except.noConfusion hc
          · intro h
            exact absurd (Or.inr (Or.inr h3)) h
        · rw [if_neg h3]
          constructor
          · rintro ⟨c, hc⟩ (hb | hn | hs)
            · exact h1 hb
            · exact h2 hn
            · exact h3 hs
          · intro h
            exact ⟨_, rfl⟩

theorem previewRunE_witness :
    (∃ c, previewRunE ⟨"", "", "MyScheme", "", ""⟩
      (fun k => if k = "PROJECT" then "/p/App.xcodeproj" else "") = Except.ok c) := by
  apply (previewRunE_spec ⟨"", "", "MyScheme", "", ""⟩
    (fun k => if k = "PROJECT" then "/p/App.xcodeproj" else "")).2.2.mpr
  decide
/-- C1: the directory layout is a pure function of (project, udid):
`Session` paths are equal iff both project and udid agree; `Build` and
`Root` are equal whenever the project is the same; `Thunk`, `Loader`
and `Staging` are under `Session`; `Socket` is under `Root`, never
under `Session`; and every successfully constructed layout has a socket
path whose UTF-8 encoding is shorter than 104 bytes, verified at
construction time. -/
theorem newPreviewDirs_spec (cache pA uA pB uB : String) :
    ((previewDirsRaw cache pA uA).Session = (previewDirsRaw cache pB uB).Session
      ↔ (pA = pB ∧ uA = uB))
    ∧ (pA = pB →
        (previewDirsRaw cache pA uA).Build = (previewDirsRaw cache pB uB).Build
        ∧ (previewDirsRaw cache pA uA).Root = (previewDirsRaw cache pB uB).Root)
    ∧ (previewDirsRaw cache pA uA).Session <+: (previewDirsRaw cache pA uA).Thunk
    ∧ (previewDirsRaw cache pA uA).Session <+: (previewDirsRaw cache pA uA).Loader
    ∧ (previewDirsRaw cache pA uA).Session <+: (previewDirsRaw cache pA uA).Staging
    ∧ (previewDirsRaw cache pA uA).Root <+: (previewDirsRaw cache pA uA).Socket
    ∧ ¬ (previewDirsRaw cache pA uA).Session <+: (previewDirsRaw cache pA uA).Socket
    ∧ (∀ d, newPreviewDirs cache pA uA = some d →
        d = previewDirsRaw cache pA uA
        ∧ utf8Length (renderPath d.Socket) < maxSunPathLen) := by
  refine ⟨?_, ?_, ?_, ?_, ?_, ?_, ?_, ?_⟩
  · simp [previewDirsRaw, hashProjectKey]
  · intro h
    simp [previewDirsRaw, hashProjectKey, h]
  · exact ⟨["thunk"], rfl⟩
  · exact ⟨["loader"], rfl⟩
  · exact ⟨["staging"], rfl⟩
  · exact ⟨["socket"], rfl⟩
  · intro h
    have := h.length_le
    simp [previewDirsRaw] at this
  · intro d hd
    rw [newPreviewDirs] at hd
    split_ifs at hd with hlen
    injection hd with he
    rw [← he]
    exact ⟨rfl, hlen⟩

theorem newPreviewDirs_witness :
    ((previewDirsRaw "/tmp/cache" "/path/to/project" "AAAA-1111").Session
      = (previewDirsRaw "/tmp/cache" "/path/to/project" "BBBB-2222").Session
      ↔ ("/path/to/project" = "/path/to/project" ∧ "AAAA-1111" = "BBBB-2222"))
    ∧ (utf8Length (renderPath (previewDirsRaw "/tmp/cache" "/path/to/project" "AAAA-1111").Socket)
        < maxSunPathLen) := by
  constructor
  · exact (newPreviewDirs_spec "/tmp/cache" "/path/to/project" "AAAA-1111" "/path/to/project"
      "BBBB-2222").1
  · exact ((newPreviewDirs_spec "/tmp/cache" "/path/to/project" "AAAA-1111" "/p" "u").2.2.2.2.2.2.2
      _ (by decide)).2
lemma foldl_seq_eq (base : String) :
    ∀ (devices : List ManagedSimulator) (a : Nat),
      (devices.foldl (fun acc d =>
        match seqNumber base d.name with
        | some n => max acc n
        | none => acc) a)
      = (devices.filterMap (fun d => seqNumber base d.name)).foldl max a := by
  intro devices
  induction devices with
  | nil => intro a; rfl
  | cons d ds ih =>
    intro a
    rw [List.foldl_cons, List.filterMap_cons]
    cases hs : seqNumber base d.name with
    | none => rw [ih]
    | some n => rw [List.foldl_cons, ih]

lemma foldl_max_ge_init (l : List Nat) : ∀ a : Nat, a ≤ l.foldl max a := by
  induction l with
  | nil => intro a; exact le_refl a
  | cons y ys ih =>
    intro a
    rw [List.foldl_cons]
    exact le_trans (le_max_left a y) (ih (max a y))

lemma foldl_max_ge (l : List Nat) : ∀ (a : Nat) (x : Nat), x ∈ l → x ≤ l.foldl max a := by
  induction l with
  | nil => intro a x hx; simp at hx
  | cons y ys ih =>
    intro a x hx
    rw [List.foldl_cons]
    rcases List.mem_cons.mp hx with h | h
    · subst h
      exact le_trans (le_max_right a x) (foldl_max_ge_init ys (max a x))
    · exact ih (max a y) x h

lemma foldl_max_mem (l : List Nat) : ∀ a : Nat, l.foldl max a = a ∨ l.foldl max a ∈ l := by
  induction l with
  | nil => intro a; exact Or.inl rfl
  | cons y ys ih =>
    intro a
    rw [List.foldl_cons]
    rcases ih (max a y) with h | h
    · rcases max_choice a y with hm | hm
      · exact Or.inl (h.trans hm)
      · refine Or.inr ?_
        rw [h, hm]
        exact List.mem_cons_self y ys
    · exact Or.inr (List.mem_cons_of_mem y h)

/-- C8: `nextSequenceNumber devices base` returns
`max(existing N for base) + 1` over devices named `axe <base> (N)`, or
`1` if no such device exists: every extracted sequence number is below
the result, and when any exists the result is exactly the attained
maximum plus one; devices of a different base or without a
parenthesized number contribute nothing. -/
theorem nextSequenceNumber_spec (devices : List ManagedSimulator) (base : String) :
    (devices.filterMap (fun d => seqNumber base d.name) = [] →
      nextSequenceNumber devices base = 1)
    ∧ (∀ n ∈ devices.filterMap (fun d => seqNumber base d.name),
        n < nextSequenceNumber devices base)
    ∧ (devices.filterMap (fun d => seqNumber base d.name) ≠ [] →
        nextSequenceNumber devices base - 1
          ∈ devices.filterMap (fun d => seqNumber base d.name)) := by
  rw [nextSequenceNumber, foldl_seq_eq]
  refine ⟨?_, ?_, ?_⟩
  · intro h
    rw [h]
    rfl
  · intro n hn
    have := foldl_max_ge _ 0 n hn
    omega
  · intro hne
    rcases foldl_max_mem (devices.filterMap (fun d => seqNumber base d.name)) 0 with h | h
    · rw [h]
      simp only [Nat.add_sub_cancel]
      cases hl : devices.filterMap (fun d => seqNumber base d.name) with
      | nil => exact absurd hl hne
      | cons x xs =>
        have hge := foldl_max_ge (devices.filterMap (fun d => seqNumber base d.name)) 0 x
          (by rw [hl]; exact List.mem_cons_self x xs)
        rw [h] at hge
        have hx : x = 0 := by omega
        rw [← hx]
        exact List.mem_cons_self x xs
    · simpa using h
theorem nextSequenceNumber_witness :
    (([⟨"axe iPhone 16 Pro (1)", "U1"⟩, ⟨"axe iPhone 16 Pro (3)", "U3"⟩]
        : List ManagedSimulator).filterMap
        (fun d => seqNumber "iPhone 16 Pro" d.name) ≠ [])
    ∧ nextSequenceNumber
        [⟨"axe iPhone 16 Pro (1)", "U1"⟩, ⟨"axe iPhone 16 Pro (3)", "U3"⟩] "iPhone 16 Pro" - 1
      ∈ ([⟨"axe iPhone 16 Pro (1)", "U1"⟩, ⟨"axe iPhone 16 Pro (3)", "U3"⟩]
          : List ManagedSimulator).filterMap (fun d => seqNumber "iPhone 16 Pro" d.name) := by
  constructor
  · decide
  · exact (nextSequenceNumber_spec
      [⟨"axe iPhone 16 Pro (1)", "U1"⟩, ⟨"axe iPhone 16 Pro (3)", "U3"⟩] "iPhone 16 Pro").2.2
      (by decide)
example : nextSequenceNumber [] "iPhone 16 Pro" = 1 := by decide
example : nextSequenceNumber [⟨"axe iPhone 16 Pro (1)", ""⟩] "iPhone 16 Pro" = 2 := by decide

example : nextSequenceNumber [⟨"axe iPhone 16 Pro (1)", ""⟩, ⟨"axe iPhone 16 Pro (3)", ""⟩] "iPhone 16 Pro" = 4 := by decide
example : nextSequenceNumber [⟨"axe iPad Air (1)", ""⟩, ⟨"axe iPhone 16 Pro (2)", ""⟩] "iPhone 16 Pro" = 3 := by decide
example : nextSequenceNumber [⟨"axe iPad Air (1)", ""⟩, ⟨"axe iPad Air (2)", ""⟩] "iPhone 16 Pro" = 1 := by decide
example : nextSequenceNumber [⟨"axe iPhone Air", ""⟩] "iPhone Air" = 1 := by decide
example : nextSequenceNumber [⟨"axe iPhone 16 Pro", ""⟩, ⟨"axe iPhone 16 Pro (2)", ""⟩] "iPhone 16 Pro" = 3 := by decide
-- sanity: the test table of TestParseCompanionPort
example : parseCompanionPort "\x7b\"grpc_swift_port\":10882,\"grpc_port\":10882\x7d" = some 10882 := by decide
example : parseCompanionPort "\x7b\"grpc_port\":9999\x7d" = some 9999 := by decide
example : parseCompanionPort "\x7b\"grpc_port\":0\x7d" = none := by decide
example : parseCompanionPort "\x7b\x7d" = none := by decide
example : parseCompanionPort "IDB Companion Built at Aug 12 2022" = none := by decide
example : parseCompanionPort "" = none := by decide
example : parseCompanionPort "Providing targets across Simulator and Device sets." = none := by decide
lemma scanForPort_append (pre post : List String) (l : String) (p : Nat)
    (hpre : ∀ l' ∈ pre, parseCompanionPort l' = none)
    (hl : parseCompanionPort l = some p) :
    scanForPort (pre ++ l :: post) = some p := by
  induction pre with
  | nil =>
    rw [List.nil_append, scanForPort, hl]
  | cons x xs ih =>
    rw [List.cons_append, scanForPort, hpre x (List.mem_cons_self x xs)]
    exact ih fun l' hl' => hpre l' (List.mem_cons_of_mem x hl')

lemma scanForPort_none (lines : List String)
    (h : ∀ l ∈ lines, parseCompanionPort l = none) : scanForPort lines = none := by
  induction lines with
  | nil => rfl
  | cons x xs ih =>
    rw [scanForPort, h x (List.mem_cons_self x xs)]
    exact ih fun l hl => h l (List.mem_cons_of_mem x hl)

/-- C4: during the companion startup handshake the first stdout line
that parses as a JSON object with a non-zero `grpc_port` establishes
readiness and determines the reported port; earlier lines that are not
such an object (non-JSON log lines, objects without the key, or a zero
`grpc_port`) are ignored; and when stdout closes without a usable port,
`StartWith` fails with an error. -/
theorem StartWith_spec :
    (∀ (pre post : List String) (l : String) (p : Nat),
      (∀ l' ∈ pre, parseCompanionPort l' = none) → parseCompanionPort l = some p →
      StartWith (pre ++ l :: post) = Except.ok p)
    ∧ (∀ lines : List String, (∀ l ∈ lines, parseCompanionPort l = none) →
      StartWith lines = Except.error "idb_companion did not output a port")
    ∧ (∀ l : String, parseJsonObject l = none → parseCompanionPort l = none)
    ∧ (∀ (l : String) (obj : List (String × JsonVal)), parseJsonObject l = some obj →
        lookupKey obj "grpc_port" = none → parseCompanionPort l = none)
    ∧ (∀ (l : String) (obj : List (String × JsonVal)), parseJsonObject l = some obj →
        lookupKey obj "grpc_port" = some (JsonVal.num 0) → parseCompanionPort l = none) := by
  refine ⟨?_, ?_, ?_, ?_, ?_⟩
  · intro pre post l p hpre hl
    rw [StartWith, scanForPort_append pre post l p hpre hl]
  · intro lines h
    rw [StartWith, scanForPort_none lines h]
  · intro l h
    rw [parseCompanionPort, h]
  · intro l obj hobj hkey
    rw [parseCompanionPort, hobj]
    simp only
    rw [hkey]
  · intro l obj hobj hkey
    rw [parseCompanionPort, hobj]
    simp only
    rw [hkey]
    rfl

theorem StartWith_witness :
    StartWith (["IDB Companion Built at Aug 12 2022 08:41:50",
        "Providing targets across Simulator and Device sets."]
      ++ "\x7b\"grpc_swift_port\":12345,\"grpc_port\":12345\x7d" :: []) = Except.ok 12345 :=
  StartWith_spec.1 _ _ _ _ (by decide) (by decide)
/-- C5: `BootHeadlessWith` succeeds iff some stdout line is a JSON
object with state "Booted" before stdout closes; on success the
returned handle observes the subprocess: `done` is not closed while it
runs, closes once it exits, and the recorded error is the subprocess's
exit error (none on clean exit). -/
theorem BootHeadlessWith_spec (lines : List String) :
    ((∃ l ∈ lines, bootedLine l = true) ↔ BootHeadlessWith lines = Except.ok companionObs)
    ∧ ((∀ l ∈ lines, bootedLine l = false) →
        BootHeadlessWith lines = Except.error "idb_companion did not report Booted state")
    ∧ (∀ h, BootHeadlessWith lines = Except.ok h →
        (h ProcStatus.running).doneClosed = false ∧ (h ProcStatus.running).exitErr = none
        ∧ ∀ e, (h (ProcStatus.exited e)).doneClosed = true
          ∧ (h (ProcStatus.exited e)).exitErr = e) := by
  refine ⟨?_, ?_, ?_⟩
  · constructor
    · intro h
      rw [BootHeadlessWith, if_pos (List.any_eq_true.mpr (by simpa using h))]
    · intro h
      rw [BootHeadlessWith] at h
      split_ifs at h with hb
      simpa using List.any_eq_true.mp hb
  · intro h
    rw [BootHeadlessWith, if_neg]
    intro hc
    obtain ⟨l, hl, hb⟩ := List.any_eq_true.mp hc
    rw [h l hl] at hb
    exact Bool.noConfusion hb
  · intro h hok
    rw [BootHeadlessWith] at hok
    split_ifs at hok with hb
    injection hok with he
    rw [← he]
    exact ⟨rfl, rfl, fun e => ⟨rfl, rfl⟩⟩

theorem BootHeadlessWith_witness :
    BootHeadlessWith ["\x7b\"state\":\"Booted\",\"udid\":\"ABCD-1234\"\x7d"]
        = Except.ok companionObs
    ∧ (companionObs ProcStatus.running).doneClosed = false
    ∧ (companionObs (ProcStatus.exited (some "signal: killed"))).doneClosed = true
    ∧ (companionObs (ProcStatus.exited (some "signal: killed"))).exitErr
        = some "signal: killed" := by
  have h := (BootHeadlessWith_spec ["\x7b\"state\":\"Booted\",\"udid\":\"ABCD-1234\"\x7d"]).1.mp
    (by decide)
  exact ⟨h, rfl, rfl, rfl⟩
/-- C10: calling Stop on a Companion whose underlying process handle is
nil returns without error: the nil-process branch is not an error
case. -/
theorem Companion_Stop_nilProcess (c : Companion) (h : c.process = none) :
    c.Stop = Except.ok () := by
  rw [Companion.Stop.eq_def, h]

theorem Companion_Stop_nilProcess_witness :
    (Companion.mk none).Stop = Except.ok () :=
  Companion_Stop_nilProcess ⟨none⟩ rfl
end Axe
